import Mathlib

/-!
# Verification of the instruction / schedule layer

Shallow embedding of `src/compiler/instruction.cc` and the `BasicBlock`
portion of `src/compiler/schedule.h`: the operand model, `PointerMap`,
`ParallelMove`, the `InstructionSequence` build API and the loop-membership
query on basic blocks.  Machine `int` values are modelled as `Int` where
signs matter (stack-slot indices, rpo numbers, the `-1` marker in the
node map) and as `Nat` where the code only ever holds sizes.  A `DCHECK`
whose failure aborts the process is modelled by an `Option` result:
`none` is the fatal assertion failure, `some` the normal return.
-/

namespace V8

/-- InstructionOperand: tagged variant over the operand kinds of
`instruction.h` (kind + index; equality is structural).  The unallocated
payload is reduced to the virtual-register id, which is all the verified
code inspects. -/
inductive InstructionOperand where
  | invalid
  | unallocated (virtual_register : Nat)
  | constant (index : Int)
  | immediate (index : Int)
  | stackSlot (index : Int)
  | doubleStackSlot (index : Int)
  | register (index : Int)
  | doubleRegister (index : Int)
  deriving DecidableEq, Repr

namespace InstructionOperand

/-- `InstructionOperand::IsStackSlot()`. -/
def IsStackSlot : InstructionOperand → Bool
  | stackSlot _ => true
  | _ => false

/-- `InstructionOperand::IsDoubleStackSlot()`. -/
def IsDoubleStackSlot : InstructionOperand → Bool
  | doubleStackSlot _ => true
  | _ => false

/-- `InstructionOperand::IsDoubleRegister()`. -/
def IsDoubleRegister : InstructionOperand → Bool
  | doubleRegister _ => true
  | _ => false

/-- `InstructionOperand::index()`; only meaningful for indexed kinds,
and only consulted by the verified code on stack slots. -/
def index : InstructionOperand → Int
  | invalid => 0
  | unallocated v => (v : Int)
  | constant i => i
  | immediate i => i
  | stackSlot i => i
  | doubleStackSlot i => i
  | register i => i
  | doubleRegister i => i

end InstructionOperand

/-- PointerMap: the two operand lists (`pointer_operands_`,
`untagged_operands_`) and the instruction position tag. -/
structure PointerMap where
  pointer_operands : List InstructionOperand
  untagged_operands : List InstructionOperand
  instruction_position : Int
  deriving DecidableEq, Repr

namespace PointerMap

/-- A freshly constructed `PointerMap(zone)`: empty lists,
`instruction_position_` initialized to `-1`. -/
def empty : PointerMap :=
  { pointer_operands := [], untagged_operands := [], instruction_position := -1 }

/-- `PointerMap::RecordPointer(op, zone)`: early-returns on a stack slot
with negative index, then `DCHECK`s the operand is not double-typed
(`none` = assertion failure), then appends to `pointer_operands_`. -/
def RecordPointer (op : InstructionOperand) (pm : PointerMap) : Option PointerMap :=
  if op.IsStackSlot ∧ op.index < 0 then some pm
  else if op.IsDoubleRegister ∨ op.IsDoubleStackSlot then none
  else some { pm with pointer_operands := pm.pointer_operands ++ [op] }

/-- `PointerMap::RecordUntagged(op, zone)`: same guards as
`RecordPointer`, appends to `untagged_operands_`. -/
def RecordUntagged (op : InstructionOperand) (pm : PointerMap) : Option PointerMap :=
  if op.IsStackSlot ∧ op.index < 0 then some pm
  else if op.IsDoubleRegister ∨ op.IsDoubleStackSlot then none
  else some { pm with untagged_operands := pm.untagged_operands ++ [op] }

/-- The deletion loop of `PointerMap::RemovePointer`: scan from index 0;
on a structurally equal entry, `Remove(i)` shifts the tail left and the
decremented counter re-examines the element now at `i`, which is the
head of the remaining tail, so the loop is the structural recursion
below. -/
def removeLoop (op : InstructionOperand) : List InstructionOperand → List InstructionOperand
  | [] => []
  | x :: xs => if x = op then removeLoop op xs else x :: removeLoop op xs

/-- `PointerMap::RemovePointer(op)`: early-returns on a stack slot with
negative index, `DCHECK`s the operand is not double-typed (`none` =
assertion failure), then runs the deletion loop over
`pointer_operands_`. -/
def RemovePointer (op : InstructionOperand) (pm : PointerMap) : Option PointerMap :=
  if op.IsStackSlot ∧ op.index < 0 then some pm
  else if op.IsDoubleRegister ∨ op.IsDoubleStackSlot then none
  else some { pm with pointer_operands := removeLoop op pm.pointer_operands }

end PointerMap

/-- One call into the `PointerMap` mutation API, for stating reachability
invariants over call sequences. -/
inductive PMCall where
  | recordPointer (op : InstructionOperand)
  | recordUntagged (op : InstructionOperand)
  | removePointer (op : InstructionOperand)
  deriving DecidableEq, Repr

/-- Apply one `PMCall`; `none` is a fatal assertion failure. -/
def applyPMCall : PMCall → PointerMap → Option PointerMap
  | .recordPointer op, pm => pm.RecordPointer op
  | .recordUntagged op, pm => pm.RecordUntagged op
  | .removePointer op, pm => pm.RemovePointer op

/-- Run a sequence of `PMCall`s; `none` as soon as any assertion fails. -/
def runPMCalls : List PMCall → PointerMap → Option PointerMap
  | [], pm => some pm
  | c :: cs, pm =>
    match applyPMCall c pm with
    | none => none
    | some pm2 => runPMCalls cs pm2

/-- An operand that is double-typed or a stack slot with negative index:
exactly the operands the pointer-operand set must never contain. -/
def badPointerOperand (op : InstructionOperand) : Prop :=
  (op.IsDoubleRegister ∨ op.IsDoubleStackSlot) = true
    ∨ (op.IsStackSlot ∧ op.index < 0)

/-- Modelled from the spec: `MoveOperands` (declared in `instruction.h`,
not under `src/`) is an ordered (source, destination) pair that may be
marked eliminated (logically removed but slot retained). -/
structure MoveOperands where
  source : InstructionOperand
  destination : InstructionOperand
  eliminated : Bool
  deriving DecidableEq, Repr

namespace MoveOperands

/-- `MoveOperands::IsEliminated()`. -/
def IsEliminated (m : MoveOperands) : Bool := m.eliminated

/-- Modelled from the spec: `MoveOperands::IsRedundant()` (defined in
`instruction.h`, not under `src/`) — a move is redundant when it has been
eliminated or its source equals its destination. -/
def IsRedundant (m : MoveOperands) : Bool :=
  m.IsEliminated || m.source = m.destination

end MoveOperands

/-- `ParallelMove`: the ordered `move_operands_` list. -/
structure ParallelMove where
  move_operands : List MoveOperands
  deriving DecidableEq, Repr

/-- `ParallelMove::IsRedundant()`: the loop over `move_operands_`
returning `false` at the first non-redundant move, `true` at the end. -/
def ParallelMove.IsRedundant (pm : ParallelMove) : Bool :=
  pm.move_operands.all MoveOperands.IsRedundant

/-- `Instruction` (and its `GapInstruction` / `BlockStartInstruction`
variants), reduced to the fields the verified code inspects: the
discriminator predicates, the optional attached pointer map, the
owning block of a `BlockStartInstruction`, and the four parallel-move
slots of a gap. -/
structure Instruction where
  is_control : Bool
  is_gap_moves : Bool
  is_block_start : Bool
  needs_pointer_map : Bool
  pointer_map : Option PointerMap
  block : Option Nat
  parallel_moves : List (Option ParallelMove)
  deriving DecidableEq, Repr

namespace Instruction

/-- `Instruction::IsControl()`. -/
def IsControl (i : Instruction) : Bool := i.is_control

/-- `Instruction::IsGapMoves()`. -/
def IsGapMoves (i : Instruction) : Bool := i.is_gap_moves

/-- `Instruction::IsBlockStart()`. -/
def IsBlockStart (i : Instruction) : Bool := i.is_block_start

/-- `Instruction::NeedsPointerMap()`. -/
def NeedsPointerMap (i : Instruction) : Bool := i.needs_pointer_map

end Instruction

/-- `GapInstruction::New(zone)`: a fresh gap instruction, all four
parallel-move slots `NULL`, no pointer map, not a control and not a
block-start instruction. -/
def GapInstruction.New : Instruction :=
  { is_control := false, is_gap_moves := true, is_block_start := false,
    needs_pointer_map := false, pointer_map := none, block := none,
    parallel_moves := [none, none, none, none] }

/-- The pointer map `AddInstruction` freshly creates for an instruction
stored at `idx`: empty operand lists, `instruction_position` set to
`idx`. -/
def freshPointerMapAt (idx : Nat) : PointerMap :=
  { PointerMap.empty with instruction_position := (idx : Int) }

/-- The mutable parts of `InstructionSequence` touched by the verified
build API: the instruction list, the sequence-wide pointer-map list, the
node map, the virtual-register counter and the deoptimization-entry
table (frame-state descriptors are identified by an abstract `Nat`
address standing for the C++ pointer). -/
structure InstructionSequence where
  instructions : List Instruction
  pointer_maps : List PointerMap
  node_map : List Int
  next_virtual_register : Nat
  deoptimization_entries : List Nat
  deriving DecidableEq, Repr

namespace InstructionSequence

/-- The `InstructionSequence` constructor for a graph with `node_count`
nodes: every `node_map_` entry is initialized to `-1`, the
virtual-register counter to `0`, all containers empty. -/
def init (node_count : Nat) : InstructionSequence :=
  { instructions := [], pointer_maps := [],
    node_map := List.replicate node_count (-1),
    next_virtual_register := 0, deoptimization_entries := [] }

/-- `InstructionSequence::AddInstruction(instr, block)`, lines 373-388:
push the fresh gap first when `instr` is a control instruction, record
the index, push `instr`, push the gap afterwards otherwise; then, when
the instruction needs a pointer map, `DCHECK` that none is attached
(`none` = assertion failure), create an empty map tagged with `index`,
attach it to the stored instruction and append it to `pointer_maps_`.
Returns the index together with the updated sequence. -/
def AddInstruction (instr : Instruction) (seq : InstructionSequence) :
    Option (Nat × InstructionSequence) :=
  let gap := GapInstruction.New
  let instrs := if instr.IsControl then seq.instructions ++ [gap] else seq.instructions
  let index := instrs.length
  let instrs := instrs ++ [instr]
  let instrs := if !instr.IsControl then instrs ++ [gap] else instrs
  if instr.NeedsPointerMap then
    if instr.pointer_map ≠ none then none
    else
      let pointer_map : PointerMap := freshPointerMapAt index
      let instrs := instrs.set index { instr with pointer_map := some pointer_map }
      some (index, { seq with instructions := instrs,
                              pointer_maps := seq.pointer_maps ++ [pointer_map] })
  else
    some (index, { seq with instructions := instrs })

/-- `InstructionSequence::GetVirtualRegister(node)`, lines 340-345: if
`node_map_[node->id()] == -1`, store `NextVirtualRegister()` there
(modelled from the spec: `NextVirtualRegister`, defined in
`instruction.h` which is not under `src/`, returns the monotonically
increasing counter and post-increments it); return the stored id
together with the updated sequence. -/
def GetVirtualRegister (node_id : Nat) (seq : InstructionSequence) :
    Int × InstructionSequence :=
  if seq.node_map.getD node_id (-1) = -1 then
    let r := seq.next_virtual_register
    ((r : Int),
     { seq with node_map := seq.node_map.set node_id (r : Int),
                next_virtual_register := r + 1 })
  else (seq.node_map.getD node_id (-1), seq)

/-- `InstructionSequence::AddFrameStateDescriptor(descriptor)`, lines
430-435: the new `StateId` is the current size of
`deoptimization_entries_`, and the descriptor is appended. -/
def AddFrameStateDescriptor (descriptor : Nat) (seq : InstructionSequence) :
    Nat × InstructionSequence :=
  let deoptimization_id := seq.deoptimization_entries.length
  (deoptimization_id,
   { seq with deoptimization_entries := seq.deoptimization_entries ++ [descriptor] })

/-- `InstructionSequence::GetFrameStateDescriptor(state_id)`, lines
437-440: unchecked indexing into `deoptimization_entries_` (`none`
models an out-of-bounds access). -/
def GetFrameStateDescriptor (state_id : Nat) (seq : InstructionSequence) :
    Option Nat :=
  seq.deoptimization_entries.get? state_id

/-- `InstructionSequence::GetBasicBlock(instruction_index)`, lines
391-400: walk backward from the index; at each step `DCHECK_LE(0,
instruction_index)` and fetch the instruction (out-of-bounds access and
walking past index 0 are both modelled as `none`); return the owning
block of the first `BlockStartInstruction` found. -/
def GetBasicBlockFrom (instructions : List Instruction) : Nat → Option Nat
  | 0 =>
    match instructions.get? 0 with
    | none => none
    | some instruction =>
      if instruction.IsBlockStart then instruction.block else none
  | i + 1 =>
    match instructions.get? (i + 1) with
    | none => none
    | some instruction =>
      if instruction.IsBlockStart then instruction.block
      else GetBasicBlockFrom instructions i

/-- `GetBasicBlock` on a sequence. -/
def GetBasicBlock (seq : InstructionSequence) (instruction_index : Nat) : Option Nat :=
  GetBasicBlockFrom seq.instructions instruction_index

end InstructionSequence

/-- The fields of `BasicBlock` (schedule.h) consulted by the
loop-membership helpers. -/
structure BasicBlock where
  rpo_number : Int
  loop_end : Int
  deriving DecidableEq, Repr

/-- `BasicBlock::IsLoopHeader()` (schedule.h line 141):
`loop_end_ >= 0`. -/
def BasicBlock.IsLoopHeader (b : BasicBlock) : Bool := b.loop_end ≥ 0

/-- Modelled from the spec: `BasicBlock::LoopContains(block)` is
declared at schedule.h line 142 but its body lives in `schedule.cc`,
which is not under `src/`; per the spec it is defined on loop headers
and returns true iff `h.rpo_number <= b.rpo_number < h.loop_end`. -/
def BasicBlock.LoopContains (h b : BasicBlock) : Bool :=
  h.rpo_number ≤ b.rpo_number ∧ b.rpo_number < h.loop_end

/-! ## Traces of build-API calls -/

namespace InstructionSequence

/-- Run `GetVirtualRegister` over a list of node ids, collecting the
returned ids in call order. -/
def runGetVReg : List Nat → InstructionSequence → List Int × InstructionSequence
  | [], seq => ([], seq)
  | n :: ns, seq =>
    let (r, seq2) := GetVirtualRegister n seq
    let (rs, seq3) := runGetVReg ns seq2
    (r :: rs, seq3)

/-- Run `AddFrameStateDescriptor` over a list of descriptors, collecting
the returned `StateId`s in call order. -/
def runAddFSD : List Nat → InstructionSequence → List Nat × InstructionSequence
  | [], seq => ([], seq)
  | d :: ds, seq =>
    let (r, seq2) := AddFrameStateDescriptor d seq
    let (rs, seq3) := runAddFSD ds seq2
    (r :: rs, seq3)

end InstructionSequence

/-- The distinct elements of a trace in order of first occurrence, those
already in `seen` excluded. -/
def firstOccsFrom (seen : List Nat) : List Nat → List Nat
  | [] => []
  | n :: ns =>
    if n ∈ seen then firstOccsFrom seen ns
    else n :: firstOccsFrom (seen ++ [n]) ns

/-- The distinct elements of a trace in order of first occurrence. -/
def firstOccs (trace : List Nat) : List Nat := firstOccsFrom [] trace

/-- Iterate `RecordPointer` with the same operand `k` times. -/
def iterRecordPointer (op : InstructionOperand) : Nat → PointerMap → Option PointerMap
  | 0, pm => some pm
  | k + 1, pm => (pm.RecordPointer op).bind (iterRecordPointer op k)

/-- Iterate `RecordUntagged` with the same operand `k` times. -/
def iterRecordUntagged (op : InstructionOperand) : Nat → PointerMap → Option PointerMap
  | 0, pm => some pm
  | k + 1, pm => (pm.RecordUntagged op).bind (iterRecordUntagged op k)

/-! ## Theorems -/

/-- The deletion loop of `RemovePointer` computes a filter: it keeps
exactly the entries not structurally equal to `op`, in order. -/
theorem removeLoop_eq_filter (op : InstructionOperand) (l : List InstructionOperand) :
    PointerMap.removeLoop op l = l.filter (fun x => x ≠ op) := by
  induction l with
  | nil => rfl
  | cons x xs ih =>
    by_cases hx : x = op <;> simp [PointerMap.removeLoop, hx, ih]

/-- C6: `ParallelMove::IsRedundant()` returns true iff every
non-eliminated move in `move_operands_` has source equal to destination
(in particular it returns true on an empty move list, and false as soon
as one non-eliminated move differs). -/
theorem ParallelMove_IsRedundant_iff (pm : ParallelMove) :
    pm.IsRedundant = true ↔
      ∀ m ∈ pm.move_operands, m.IsEliminated = false → m.source = m.destination := by
  simp only [ParallelMove.IsRedundant, List.all_eq_true, MoveOperands.IsRedundant,
    MoveOperands.IsEliminated, Bool.or_eq_true, decide_eq_true_eq]
  constructor
  · intro h m hm he
    rcases h m hm with h' | h'
    · rw [he] at h'; cases h'
    · exact h'
  · intro h m hm
    by_cases he : m.eliminated = true
    · exact Or.inl he
    · exact Or.inr (h m hm (Bool.not_eq_true _ ▸ he))

/-- C3: on a stack slot with negative index, `RecordPointer` and
`RecordUntagged` leave the pointer map unchanged; on any other operand
that is not double-typed, each call appends exactly one entry to the
respective operand list, so `k` calls with the same operand append `k`
entries. -/
theorem record_spec (op : InstructionOperand) (pm : PointerMap) :
    ((op.IsStackSlot ∧ op.index < 0) →
      pm.RecordPointer op = some pm ∧ pm.RecordUntagged op = some pm)
    ∧ (¬(op.IsStackSlot ∧ op.index < 0) →
       ¬(op.IsDoubleRegister ∨ op.IsDoubleStackSlot) →
        pm.RecordPointer op
          = some { pm with pointer_operands := pm.pointer_operands ++ [op] }
        ∧ pm.RecordUntagged op
          = some { pm with untagged_operands := pm.untagged_operands ++ [op] }
        ∧ ∀ k, iterRecordPointer op k pm
          = some { pm with pointer_operands := pm.pointer_operands ++ List.replicate k op }
        ∧ iterRecordUntagged op k pm
          = some { pm with untagged_operands := pm.untagged_operands ++ List.replicate k op }) := by
  constructor
  · intro hneg
    simp [PointerMap.RecordPointer, PointerMap.RecordUntagged, hneg]
  · intro hneg hdbl
    refine ⟨by simp [PointerMap.RecordPointer, hneg, hdbl], by
      simp [PointerMap.RecordUntagged, hneg, hdbl], ?_⟩
    intro k
    induction k generalizing pm with
    | zero => simp [iterRecordPointer, iterRecordUntagged]
    | succ k ih =>
      have hp : pm.RecordPointer op
          = some { pm with pointer_operands := pm.pointer_operands ++ [op] } := by
        simp [PointerMap.RecordPointer, hneg, hdbl]
      have hu : pm.RecordUntagged op
          = some { pm with untagged_operands := pm.untagged_operands ++ [op] } := by
        simp [PointerMap.RecordUntagged, hneg, hdbl]
      constructor
      · rw [iterRecordPointer, hp]
        simp only [Option.some_bind,
          (ih { pm with pointer_operands := pm.pointer_operands ++ [op] }).1]
        simp [List.replicate_succ]
      · rw [iterRecordUntagged, hu]
        simp only [Option.some_bind,
          (ih { pm with untagged_operands := pm.untagged_operands ++ [op] }).2]
        simp [List.replicate_succ]

/-- C3 witness: instantiated at a register operand and at a negative
stack slot. -/
theorem record_spec_witness :
    (PointerMap.empty.RecordPointer (.stackSlot (-1)) = some PointerMap.empty)
    ∧ PointerMap.empty.RecordPointer (.register 3)
        = some { PointerMap.empty with pointer_operands := [.register 3] } := by
  refine ⟨((record_spec (.stackSlot (-1)) PointerMap.empty).1 (by decide)).1, ?_⟩
  have h := ((record_spec (.register 3) PointerMap.empty).2 (by decide) (by decide)).1
  simpa [PointerMap.empty] using h

/-- One successful `PointerMap` API call preserves the pointer-operand
invariant: no double-typed operand and no negative-index stack slot. -/
theorem applyPMCall_preserves (c : PMCall) (pm pm' : PointerMap)
    (hinv : ∀ op ∈ pm.pointer_operands, ¬ badPointerOperand op)
    (hstep : applyPMCall c pm = some pm') :
    ∀ op ∈ pm'.pointer_operands, ¬ badPointerOperand op := by
  cases c with
  | recordPointer op =>
    simp only [applyPMCall, PointerMap.RecordPointer] at hstep
    split at hstep
    · cases hstep; exact hinv
    · split at hstep
      · cases hstep
      · rename_i hneg hdbl
        cases hstep
        intro x hx
        simp only [List.mem_append, List.mem_singleton] at hx
        rcases hx with hx | hx
        · exact hinv x hx
        · subst hx
          intro hbad
          rcases hbad with hb | hb
          · exact hdbl (by simpa using hb)
          · exact hneg hb
  | recordUntagged op =>
    simp only [applyPMCall, PointerMap.RecordUntagged] at hstep
    split at hstep
    · cases hstep; exact hinv
    · split at hstep
      · cases hstep
      · cases hstep; exact hinv
  | removePointer op =>
    simp only [applyPMCall, PointerMap.RemovePointer] at hstep
    split at hstep
    · cases hstep; exact hinv
    · split at hstep
      · cases hstep
      · cases hstep
        intro x hx
        rw [removeLoop_eq_filter] at hx
        exact hinv x (List.mem_of_mem_filter hx)

/-- C4: in every pointer map reachable from the empty map by a sequence
of `RecordPointer` / `RecordUntagged` / `RemovePointer` calls that does
not trip an assertion, the pointer-operand list contains no double-typed
operand and no stack slot with negative index. -/
theorem pointer_operands_invariant (calls : List PMCall) (pm : PointerMap)
    (h : runPMCalls calls PointerMap.empty = some pm) :
    ∀ op ∈ pm.pointer_operands, ¬ badPointerOperand op := by
  suffices H : ∀ (cs : List PMCall) (p q : PointerMap),
      (∀ op ∈ p.pointer_operands, ¬ badPointerOperand op) →
      runPMCalls cs p = some q →
      ∀ op ∈ q.pointer_operands, ¬ badPointerOperand op by
    exact H calls PointerMap.empty pm (by simp [PointerMap.empty]) h
  intro cs
  induction cs with
  | nil =>
    intro p q hp hrun
    simp only [runPMCalls] at hrun
    cases hrun; exact hp
  | cons c cs ih =>
    intro p q hp hrun
    simp only [runPMCalls] at hrun
    cases hc : applyPMCall c p with
    | none => rw [hc] at hrun; cases hrun
    | some p2 =>
      rw [hc] at hrun
      exact ih p2 q (applyPMCall_preserves c p p2 hp hc) hrun

/-- C4 witness: after recording a register and a positive stack slot and
removing the register, the remaining entry satisfies the invariant. -/
theorem pointer_operands_invariant_witness :
    ¬ badPointerOperand (.stackSlot 4) :=
  pointer_operands_invariant
    [.recordPointer (.register 2), .recordPointer (.stackSlot 4),
     .removePointer (.register 2)]
    { pointer_operands := [.stackSlot 4], untagged_operands := [],
      instruction_position := -1 }
    (by rfl) (.stackSlot 4) (by simp)

/-- C5: a single `RemovePointer(op)` call, on any operand on which it
completes without tripping the double-operand assertion and any pointer
map whose pointer-operand list satisfies the reachability invariant of
containing no negative-index stack slot, removes every entry
structurally equal to `op` and keeps all other entries in their original
relative order. -/
theorem removePointer_spec (op : InstructionOperand) (pm : PointerMap)
    (hdbl : ¬(op.IsDoubleRegister ∨ op.IsDoubleStackSlot))
    (hinv : ∀ x ∈ pm.pointer_operands, ¬(x.IsStackSlot ∧ x.index < 0)) :
    pm.RemovePointer op
      = some { pm with
          pointer_operands := pm.pointer_operands.filter (fun x => x ≠ op) } := by
  by_cases hneg : op.IsStackSlot ∧ op.index < 0
  · have hfix : pm.pointer_operands.filter (fun x => x ≠ op) = pm.pointer_operands := by
      apply List.filter_eq_self.2
      intro x hx
      have hne : x ≠ op := by
        intro hxe
        exact hinv x hx (hxe ▸ hneg)
      simpa using hne
    have hrec : { pm with
        pointer_operands := pm.pointer_operands.filter (fun x => x ≠ op) } = pm := by
      cases pm
      simp only at hfix ⊢
      rw [hfix]
    rw [hrec]
    simp [PointerMap.RemovePointer, hneg]
  · simp [PointerMap.RemovePointer, hneg, hdbl, removeLoop_eq_filter]

/-- C5 witness: removing `[stack:2]` from a map holding it twice around
a register deletes both copies and keeps the register. -/
theorem removePointer_spec_witness :
    PointerMap.RemovePointer (.stackSlot 2)
      { pointer_operands := [.stackSlot 2, .register 1, .stackSlot 2],
        untagged_operands := [], instruction_position := -1 }
      = some { pointer_operands := [.register 1],
               untagged_operands := [], instruction_position := -1 } := by
  have h := removePointer_spec (.stackSlot 2)
    { pointer_operands := [.stackSlot 2, .register 1, .stackSlot 2],
      untagged_operands := [], instruction_position := -1 }
    (by decide) (by decide)
  simpa using h

/-- C8: on a loop-header block `h` (one with `loop_end >= 0`) with rpo
number `R` and loop end `E`, `LoopContains(b)` holds exactly when
`R <= b.rpo_number < E`; in particular `h` contains itself exactly when
`R < E`. -/
theorem loopContains_spec (h b : BasicBlock) (_hh : h.IsLoopHeader = true) :
    (h.LoopContains b = true ↔
      h.rpo_number ≤ b.rpo_number ∧ b.rpo_number < h.loop_end)
    ∧ (h.LoopContains h = true ↔ h.rpo_number < h.loop_end) := by
  constructor
  · simp [BasicBlock.LoopContains]
  · simp [BasicBlock.LoopContains]

/-- C8 witness: a header with rpo 2 and loop end 5 contains the block
with rpo 3 and itself. -/
theorem loopContains_spec_witness :
    (BasicBlock.LoopContains ⟨2, 5⟩ ⟨3, -1⟩ = true ↔ (2 : Int) ≤ 3 ∧ (3 : Int) < 5)
    ∧ (BasicBlock.LoopContains ⟨2, 5⟩ ⟨2, 5⟩ = true ↔ (2 : Int) < 5) :=
  loopContains_spec ⟨2, 5⟩ ⟨3, -1⟩ (by decide)

/-- Running `AddFrameStateDescriptor` over a descriptor list appends the
descriptors and hands out the next `deoptimization_entries_.size()`
values as ids. -/
theorem runAddFSD_spec (ds : List Nat) (seq : InstructionSequence) :
    (InstructionSequence.runAddFSD ds seq).1
        = (List.range ds.length).map (· + seq.deoptimization_entries.length)
    ∧ (InstructionSequence.runAddFSD ds seq).2.deoptimization_entries
        = seq.deoptimization_entries ++ ds := by
  induction ds generalizing seq with
  | nil => simp [InstructionSequence.runAddFSD]
  | cons d ds ih =>
    have h1 := (ih { seq with
        deoptimization_entries := seq.deoptimization_entries ++ [d] }).1
    have h2 := (ih { seq with
        deoptimization_entries := seq.deoptimization_entries ++ [d] }).2
    constructor
    · simp only [InstructionSequence.runAddFSD, InstructionSequence.AddFrameStateDescriptor]
      rw [h1]
      simp [List.range_succ_eq_map, Function.comp]
      omega
    · simp only [InstructionSequence.runAddFSD, InstructionSequence.AddFrameStateDescriptor]
      rw [h2]
      simp

/-- C9: starting from a fresh sequence, `AddFrameStateDescriptor`
returns the StateIds 0, 1, 2, ... in call order, and
`GetFrameStateDescriptor` on each returned id yields exactly the
descriptor passed to the call that produced it (and is out of bounds
beyond them). -/
theorem addFrameStateDescriptor_spec (ds : List Nat) (node_count : Nat) :
    (InstructionSequence.runAddFSD ds (InstructionSequence.init node_count)).1
        = List.range ds.length
    ∧ ∀ i, InstructionSequence.GetFrameStateDescriptor i
        (InstructionSequence.runAddFSD ds (InstructionSequence.init node_count)).2
        = ds.get? i := by
  have h := runAddFSD_spec ds (InstructionSequence.init node_count)
  constructor
  · rw [h.1]
    simp [InstructionSequence.init]
  · intro i
    simp only [InstructionSequence.GetFrameStateDescriptor]
    rw [h.2]
    simp [InstructionSequence.init]

/-- Setting the element right after a prefix `l` rewrites the head of
the remaining tail. -/
theorem set_after_prefix {α : Type} (l : List α) (a : α) (t : List α) (c : α) :
    (l ++ a :: t).set l.length c = l ++ c :: t := by
  induction l with
  | nil => rfl
  | cons x xs ih => simp [List.set, ih]

/-- Setting an element after two appended singletons: replace the first
appended element. -/
theorem set_len_fst {α : Type} (l : List α) (a b c : α) :
    ((l ++ [a]) ++ [b]).set l.length c = l ++ [c, b] := by
  induction l with
  | nil => rfl
  | cons x xs ih => simp [List.set, ih]

/-- Setting an element after two appended singletons: replace the second
appended element. -/
theorem set_len_snd {α : Type} (l : List α) (a b c : α) :
    ((l ++ [a]) ++ [b]).set (l.length + 1) c = l ++ [a, c] := by
  induction l with
  | nil => rfl
  | cons x xs ih => simp [List.set, ih]

/-- The instruction stored by `AddInstruction`: the argument itself,
with the freshly created pointer map attached when it needs one. -/
def storedInstruction (instr : Instruction) (idx : Nat) : Instruction :=
  if instr.NeedsPointerMap then
    { instr with pointer_map := some (freshPointerMapAt idx) }
  else instr

/-- C1: a successful `AddInstruction(instr, block)` on a sequence whose
instruction list has length `i` appends `instr` (with its pointer map
attached when it needs one) at index `i` and a fresh empty gap at
`i + 1` and returns `i` when `instr` is not a control instruction; when
it is a control instruction, the gap goes at index `i` and `instr` at
`i + 1`, and `i + 1` is returned — in both cases the returned index
addresses the real instruction and every previously stored
instruction keeps its index. -/
theorem addInstruction_layout (instr : Instruction) (seq : InstructionSequence)
    (idx : Nat) (seq' : InstructionSequence)
    (h : InstructionSequence.AddInstruction instr seq = some (idx, seq')) :
    (∀ j, j < seq.instructions.length →
        seq'.instructions.get? j = seq.instructions.get? j)
    ∧ (instr.IsControl = false →
        idx = seq.instructions.length
        ∧ seq'.instructions
            = seq.instructions ++ [storedInstruction instr idx, GapInstruction.New])
    ∧ (instr.IsControl = true →
        idx = seq.instructions.length + 1
        ∧ seq'.instructions
            = seq.instructions ++ [GapInstruction.New, storedInstruction instr idx]) := by
  have main : (instr.IsControl = false →
        idx = seq.instructions.length
        ∧ seq'.instructions
            = seq.instructions ++ [storedInstruction instr idx, GapInstruction.New])
    ∧ (instr.IsControl = true →
        idx = seq.instructions.length + 1
        ∧ seq'.instructions
            = seq.instructions ++ [GapInstruction.New, storedInstruction instr idx]) := by
    cases hc : instr.IsControl with
    | false =>
      refine ⟨fun _ => ?_, fun hcc => Bool.noConfusion hcc⟩
      cases hp : instr.NeedsPointerMap with
      | false =>
        simp only [InstructionSequence.AddInstruction, hc, hp, Bool.not_false,
          if_true, if_false, Bool.false_eq_true, Option.some.injEq, Prod.mk.injEq] at h
        obtain ⟨h1, h2⟩ := h
        subst h1 h2
        refine ⟨rfl, ?_⟩
        simp [storedInstruction, hp, List.append_assoc]
      | true =>
        cases hpm : instr.pointer_map with
        | some pm0 =>
          simp [InstructionSequence.AddInstruction, hc, hp, hpm] at h
        | none =>
          simp only [InstructionSequence.AddInstruction, hc, hp, hpm, Bool.not_false,
            if_true, if_false, ne_eq, not_true_eq_false, Bool.false_eq_true,
            not_false_eq_true, Option.some.injEq, Prod.mk.injEq] at h
          obtain ⟨h1, h2⟩ := h
          subst h1 h2
          refine ⟨rfl, ?_⟩
          simp only [set_len_fst]
          simp [storedInstruction, hp]
    | true =>
      refine ⟨fun hcc => Bool.noConfusion hcc, fun _ => ?_⟩
      cases hp : instr.NeedsPointerMap with
      | false =>
        simp only [InstructionSequence.AddInstruction, hc, hp, Bool.not_true,
          if_true, if_false, Bool.false_eq_true, Option.some.injEq, Prod.mk.injEq] at h
        obtain ⟨h1, h2⟩ := h
        subst h1 h2
        refine ⟨by simp, ?_⟩
        simp [storedInstruction, hp, List.append_assoc]
      | true =>
        cases hpm : instr.pointer_map with
        | some pm0 =>
          simp [InstructionSequence.AddInstruction, hc, hp, hpm] at h
        | none =>
          simp only [InstructionSequence.AddInstruction, hc, hp, hpm, Bool.not_true,
            if_true, if_false, ne_eq, not_true_eq_false, Bool.false_eq_true,
            not_false_eq_true, Option.some.injEq, Prod.mk.injEq] at h
          obtain ⟨h1, h2⟩ := h
          subst h1 h2
          refine ⟨by simp, ?_⟩
          simp only [List.length_append, List.length_singleton, set_len_snd]
          simp [storedInstruction, hp]
  refine ⟨?_, main⟩
  intro j hj
  cases hc : instr.IsControl with
  | false =>
    rw [(main.1 hc).2]
    exact List.get?_append hj
  | true =>
    rw [(main.2 hc).2]
    exact List.get?_append hj

/-- C1 witness: a plain (non-control) instruction added to a fresh
sequence lands at index 0 with a gap after it; a control instruction
lands at index 1 with the gap before it. -/
theorem addInstruction_layout_witness :
    ([{ is_control := false, is_gap_moves := false, is_block_start := false,
        needs_pointer_map := false, pointer_map := none, block := none,
        parallel_moves := [] }, GapInstruction.New] : List Instruction)
      = (InstructionSequence.init 0).instructions
        ++ [storedInstruction
              { is_control := false, is_gap_moves := false, is_block_start := false,
                needs_pointer_map := false, pointer_map := none, block := none,
                parallel_moves := [] } 0, GapInstruction.New]
    ∧ ([GapInstruction.New,
        { is_control := true, is_gap_moves := false, is_block_start := false,
          needs_pointer_map := false, pointer_map := none, block := none,
          parallel_moves := [] }] : List Instruction)
      = (InstructionSequence.init 0).instructions
        ++ [GapInstruction.New,
            storedInstruction
              { is_control := true, is_gap_moves := false, is_block_start := false,
                needs_pointer_map := false, pointer_map := none, block := none,
                parallel_moves := [] } 1] := by
  constructor
  · exact ((addInstruction_layout
      { is_control := false, is_gap_moves := false, is_block_start := false,
        needs_pointer_map := false, pointer_map := none, block := none,
        parallel_moves := [] }
      (InstructionSequence.init 0) 0
      { instructions :=
          [{ is_control := false, is_gap_moves := false, is_block_start := false,
             needs_pointer_map := false, pointer_map := none, block := none,
             parallel_moves := [] }, GapInstruction.New],
        pointer_maps := [], node_map := [], next_virtual_register := 0,
        deoptimization_entries := [] }
      (by rfl)).2.1 rfl).2
  · exact ((addInstruction_layout
      { is_control := true, is_gap_moves := false, is_block_start := false,
        needs_pointer_map := false, pointer_map := none, block := none,
        parallel_moves := [] }
      (InstructionSequence.init 0) 1
      { instructions :=
          [GapInstruction.New,
           { is_control := true, is_gap_moves := false, is_block_start := false,
             needs_pointer_map := false, pointer_map := none, block := none,
             parallel_moves := [] }],
        pointer_maps := [], node_map := [], next_virtual_register := 0,
        deoptimization_entries := [] }
      (by rfl)).2.2 rfl).2

/-- The element right after a prefix `l`. -/
theorem get?_after_prefix {α : Type} (l : List α) (a : α) (t : List α) :
    (l ++ a :: t).get? l.length = some a := by
  induction l with
  | nil => rfl
  | cons x xs ih => simpa using ih

/-- The second element after a prefix `l`. -/
theorem get?_len_snd {α : Type} (l : List α) (a b : α) :
    (l ++ [a, b]).get? (l.length + 1) = some b := by
  induction l with
  | nil => rfl
  | cons x xs ih => simpa using ih

/-- C7: when `instr.NeedsPointerMap()` holds and no pointer map is
attached yet, a successful `AddInstruction` creates a fresh empty
pointer map whose `instruction_position` is the returned index, attaches
it to the stored instruction and appends it to the sequence-wide
pointer-map list; calling `AddInstruction` on an instruction that needs
a pointer map and already has one attached fails the
`DCHECK(instr->pointer_map() == NULL)` assertion. -/
theorem addInstruction_pointer_map (instr : Instruction) (seq : InstructionSequence)
    (hneeds : instr.NeedsPointerMap = true) :
    (∀ idx seq', instr.pointer_map = none →
        InstructionSequence.AddInstruction instr seq = some (idx, seq') →
        seq'.pointer_maps = seq.pointer_maps ++ [freshPointerMapAt idx]
        ∧ seq'.instructions.get? idx
            = some { instr with pointer_map := some (freshPointerMapAt idx) })
    ∧ (instr.pointer_map ≠ none →
        InstructionSequence.AddInstruction instr seq = none) := by
  constructor
  · intro idx seq' hpm h
    cases hc : instr.IsControl with
    | false =>
      simp only [InstructionSequence.AddInstruction, hc, hneeds, hpm, Bool.not_false,
        if_true, if_false, ne_eq, not_true_eq_false, Bool.false_eq_true,
        not_false_eq_true, Option.some.injEq, Prod.mk.injEq] at h
      obtain ⟨h1, h2⟩ := h
      subst h1 h2
      refine ⟨rfl, ?_⟩
      simp only [set_len_fst]
      exact get?_after_prefix seq.instructions _ [GapInstruction.New]
    | true =>
      simp only [InstructionSequence.AddInstruction, hc, hneeds, hpm, Bool.not_true,
        if_true, if_false, ne_eq, not_true_eq_false, Bool.false_eq_true,
        not_false_eq_true, Option.some.injEq, Prod.mk.injEq] at h
      obtain ⟨h1, h2⟩ := h
      subst h1 h2
      simp only [List.length_append, List.length_singleton, set_len_snd]
      exact ⟨by simp, get?_len_snd _ _ _⟩
  · intro hpm
    simp [InstructionSequence.AddInstruction, hneeds, hpm]

/-- C7 witness: a non-control instruction needing a pointer map, added
to a fresh sequence, yields pointer-map list `[freshPointerMapAt 0]`;
adding one that already carries a map is an assertion failure. -/
theorem addInstruction_pointer_map_witness :
    ({ instructions :=
        [{ is_control := false, is_gap_moves := false, is_block_start := false,
           needs_pointer_map := true, pointer_map := some (freshPointerMapAt 0),
           block := none, parallel_moves := [] }, GapInstruction.New],
       pointer_maps := [freshPointerMapAt 0], node_map := [],
       next_virtual_register := 0,
       deoptimization_entries := [] } : InstructionSequence).pointer_maps
      = (InstructionSequence.init 0).pointer_maps ++ [freshPointerMapAt 0]
    ∧ InstructionSequence.AddInstruction
        { is_control := false, is_gap_moves := false, is_block_start := false,
          needs_pointer_map := true, pointer_map := some PointerMap.empty,
          block := none, parallel_moves := [] }
        (InstructionSequence.init 0) = none := by
  constructor
  · exact ((addInstruction_pointer_map
      { is_control := false, is_gap_moves := false, is_block_start := false,
        needs_pointer_map := true, pointer_map := none,
        block := none, parallel_moves := [] }
      (InstructionSequence.init 0) rfl).1 0 _ rfl (by rfl)).1
  · exact (addInstruction_pointer_map
      { is_control := false, is_gap_moves := false, is_block_start := false,
        needs_pointer_map := true, pointer_map := some PointerMap.empty,
        block := none, parallel_moves := [] }
      (InstructionSequence.init 0) rfl).2 (by simp)

/-- C10: the backward scan of `GetBasicBlock(instruction_index)`
returns the owning block of the nearest `BlockStartInstruction` at or
below the given index when one exists, and otherwise walks past index 0
and fails the `DCHECK_LE(0, instruction_index)` assertion (modelled as
`none`) — it completes normally only under that precondition. -/
theorem getBasicBlock_scan (instrs : List Instruction) (index : Nat)
    (hlt : index < instrs.length) :
    (∀ j ins, j ≤ index → instrs.get? j = some ins → ins.IsBlockStart = true →
      (∀ k ins', j < k → k ≤ index → instrs.get? k = some ins' →
        ins'.IsBlockStart = false) →
      InstructionSequence.GetBasicBlockFrom instrs index = ins.block)
    ∧ ((∀ j ins, j ≤ index → instrs.get? j = some ins → ins.IsBlockStart = false) →
      InstructionSequence.GetBasicBlockFrom instrs index = none) := by
  induction index with
  | zero =>
    cases hTop : instrs.get? 0 with
    | none =>
      rw [List.get?_eq_none] at hTop
      omega
    | some i0 =>
      constructor
      · intro j ins hj hins hbs _
        have hj0 : j = 0 := Nat.le_zero.1 hj
        subst hj0
        rw [hins] at hTop
        cases hTop
        simp [InstructionSequence.GetBasicBlockFrom, ← List.get?_eq_getElem?, hins, hbs]
      · intro hall
        have hb0 := hall 0 i0 (Nat.le_refl 0) hTop
        simp [InstructionSequence.GetBasicBlockFrom, ← List.get?_eq_getElem?, hTop, hb0]
  | succ n ih =>
    have hn : n < instrs.length := by omega
    have IH := ih hn
    cases hTop : instrs.get? (n + 1) with
    | none =>
      rw [List.get?_eq_none] at hTop
      omega
    | some iTop =>
      cases hbTop : iTop.IsBlockStart with
      | true =>
        constructor
        · intro j ins hj hins hbs hnear
          have hj1 : j = n + 1 := by
            by_contra hne
            have hjlt : j < n + 1 := by omega
            have := hnear (n + 1) iTop hjlt (Nat.le_refl _) hTop
            rw [this] at hbTop
            cases hbTop
          subst hj1
          rw [hins] at hTop
          cases hTop
          simp [InstructionSequence.GetBasicBlockFrom, ← List.get?_eq_getElem?, hins, hbs]
        · intro hall
          have := hall (n + 1) iTop (Nat.le_refl _) hTop
          rw [this] at hbTop
          cases hbTop
      | false =>
        have hstep : InstructionSequence.GetBasicBlockFrom instrs (n + 1)
            = InstructionSequence.GetBasicBlockFrom instrs n := by
          simp [InstructionSequence.GetBasicBlockFrom, ← List.get?_eq_getElem?, hTop, hbTop]
        constructor
        · intro j ins hj hins hbs hnear
          have hjn : j ≤ n := by
            by_contra hne
            have hj1 : j = n + 1 := by omega
            subst hj1
            rw [hins] at hTop
            cases hTop
            rw [hbs] at hbTop
            cases hbTop
          rw [hstep]
          exact IH.1 j ins hjn hins hbs
            (fun k ins' hk1 hk2 hk3 => hnear k ins' hk1 (by omega) hk3)
        · intro hall
          rw [hstep]
          exact IH.2 (fun j ins hj hins => hall j ins (by omega) hins)

/-- C10 witness: scanning backward from index 1 over a block start
followed by a plain instruction finds the block start at index 0; over
two plain instructions the scan fails the assertion. -/
theorem getBasicBlock_scan_witness :
    InstructionSequence.GetBasicBlockFrom
      [{ is_control := false, is_gap_moves := true, is_block_start := true,
         needs_pointer_map := false, pointer_map := none, block := some 7,
         parallel_moves := [] }, GapInstruction.New] 1 = some 7
    ∧ InstructionSequence.GetBasicBlockFrom
        [GapInstruction.New, GapInstruction.New] 1 = none := by
  constructor
  · exact (getBasicBlock_scan
      [{ is_control := false, is_gap_moves := true, is_block_start := true,
         needs_pointer_map := false, pointer_map := none, block := some 7,
         parallel_moves := [] }, GapInstruction.New] 1 (by decide)).1
      0
      { is_control := false, is_gap_moves := true, is_block_start := true,
        needs_pointer_map := false, pointer_map := none, block := some 7,
        parallel_moves := [] }
      (by decide) (by rfl) (by rfl)
      (fun k ins' hk1 hk2 hk3 => by
        have hk : k = 1 := by omega
        subst hk
        cases hk3
        rfl)
  · exact (getBasicBlock_scan [GapInstruction.New, GapInstruction.New] 1 (by decide)).2
      (fun j ins hj hins => by
        match j, hj with
        | 0, _ => cases hins; rfl
        | 1, _ => cases hins; rfl)

/-- Every element produced by `firstOccsFrom seen t` is new: it does
not occur in `seen`. -/
theorem mem_firstOccsFrom_not_mem {x : Nat} :
    ∀ (t seen : List Nat), x ∈ firstOccsFrom seen t → x ∉ seen := by
  intro t
  induction t with
  | nil => intro seen hx; cases hx
  | cons m ms ih =>
    intro seen hx
    by_cases hm : m ∈ seen
    · rw [firstOccsFrom, if_pos hm] at hx
      exact ih seen hx
    · rw [firstOccsFrom, if_neg hm] at hx
      rcases List.mem_cons.1 hx with hx | hx
      · subst hx; exact hm
      · intro hxs
        exact ih (seen ++ [m]) hx (List.mem_append_left _ hxs)

/-- `firstOccsFrom` never repeats an element. -/
theorem nodup_firstOccsFrom : ∀ (t seen : List Nat), (firstOccsFrom seen t).Nodup := by
  intro t
  induction t with
  | nil => intro seen; exact List.nodup_nil
  | cons m ms ih =>
    intro seen
    by_cases hm : m ∈ seen
    · rw [firstOccsFrom, if_pos hm]
      exact ih seen
    · rw [firstOccsFrom, if_neg hm]
      refine List.nodup_cons.2 ⟨?_, ih (seen ++ [m])⟩
      intro hmem
      exact mem_firstOccsFrom_not_mem ms (seen ++ [m]) hmem
        (List.mem_append_right _ (List.mem_singleton.2 rfl))

/-- On a duplicate-free list, mapping each element to its own index
enumerates `0, 1, 2, ...`. -/
theorem map_indexOf_self_of_nodup :
    ∀ (l : List Nat), l.Nodup → l.map (fun m => l.indexOf m) = List.range l.length := by
  intro l
  induction l with
  | nil => intro _; rfl
  | cons x xs ih =>
    intro hnd
    rcases List.nodup_cons.1 hnd with ⟨hx, hxs⟩
    have hmap : xs.map (fun m => (x :: xs).indexOf m)
        = (xs.map (fun m => xs.indexOf m)).map Nat.succ := by
      rw [List.map_map]
      apply List.map_congr_left
      intro m hm
      have hne : x ≠ m := fun he => hx (he ▸ hm)
      simp [Function.comp, List.indexOf_cons_ne _ hne]
    simp only [List.map_cons, List.indexOf_cons_self, List.length_cons,
      List.range_succ_eq_map, hmap, ih hxs]

/-- Invariant tying a `GetVirtualRegister` call history to the sequence
state: `seen` lists the nodes already queried, in first-call order; the
counter equals their number and the node map stores each one's rank. -/
def VRegInv (seen : List Nat) (seq : InstructionSequence) : Prop :=
  seq.next_virtual_register = seen.length
  ∧ seen.Nodup
  ∧ (∀ i, i < seq.node_map.length →
      seq.node_map.getD i (-1)
        = if i ∈ seen then ((seen.indexOf i : Nat) : Int) else -1)

/-- One `GetVirtualRegister` call: a node already seen gets its stored
id back and the state is untouched; a new node gets the counter value
and the invariant advances to `seen ++ [m]`. -/
theorem getVReg_step (seen : List Nat) (seq : InstructionSequence) (m : Nat)
    (hinv : VRegInv seen seq) (hm : m < seq.node_map.length) :
    (m ∈ seen →
      InstructionSequence.GetVirtualRegister m seq
        = (((seen.indexOf m : Nat) : Int), seq))
    ∧ (m ∉ seen →
      (InstructionSequence.GetVirtualRegister m seq).1 = (seen.length : Int)
      ∧ VRegInv (seen ++ [m]) (InstructionSequence.GetVirtualRegister m seq).2
      ∧ (InstructionSequence.GetVirtualRegister m seq).2.node_map.length
          = seq.node_map.length) := by
  obtain ⟨h1, h2, h4⟩ := hinv
  constructor
  · intro hmem
    have hval := h4 m hm
    rw [if_pos hmem] at hval
    have hne : seq.node_map.getD m (-1) ≠ -1 := by
      rw [hval]; omega
    rw [List.getD_eq_getElem?_getD] at hval hne
    simp [InstructionSequence.GetVirtualRegister, hne, hval]
  · intro hmem
    have hval := h4 m hm
    rw [if_neg hmem] at hval
    rw [List.getD_eq_getElem?_getD] at hval
    have hrun : InstructionSequence.GetVirtualRegister m seq
        = ((seq.next_virtual_register : Int),
           { seq with node_map := seq.node_map.set m (seq.next_virtual_register : Int),
                      next_virtual_register := seq.next_virtual_register + 1 }) := by
      simp [InstructionSequence.GetVirtualRegister, hval]
    rw [hrun]
    refine ⟨by rw [h1], ⟨?_, ?_, ?_⟩, by simp⟩
    · simp [h1]
    · simp only [List.nodup_append, List.nodup_cons, List.nodup_nil]
      exact ⟨h2, by simp, by simpa using hmem⟩
    · intro i hi
      simp only [List.length_set] at hi
      by_cases him : i = m
      · subst him
        rw [List.getD_eq_getElem?_getD, List.getElem?_set_eq hm]
        have hidx : (seen ++ [i]).indexOf i = seen.length := by
          rw [List.indexOf_append_of_not_mem hmem]
          simp
        rw [if_pos (List.mem_append_right _ (List.mem_singleton.2 rfl)), hidx, h1]
        rfl
      · rw [List.getD_eq_getElem?_getD,
          List.getElem?_set_ne (fun he => him he.symm),
          ← List.getD_eq_getElem?_getD, h4 i hi]
        have hmem2 : i ∈ seen ++ [m] ↔ i ∈ seen := by
          simp [List.mem_append, him]
        by_cases hin : i ∈ seen
        · rw [if_pos hin, if_pos (hmem2.2 hin), List.indexOf_append_of_mem hin]
        · rw [if_neg hin, if_neg (fun hc => hin (hmem2.1 hc))]

/-- Running a trace of `GetVirtualRegister` calls from an invariant
state returns, for each call, the rank of its node in the combined
first-occurrence order. -/
theorem runGetVReg_spec :
    ∀ (t seen : List Nat) (seq : InstructionSequence),
    VRegInv seen seq → (∀ i ∈ t, i < seq.node_map.length) →
    (InstructionSequence.runGetVReg t seq).1
      = t.map (fun m => (((seen ++ firstOccsFrom seen t).indexOf m : Nat) : Int)) := by
  intro t
  induction t with
  | nil => intro seen seq _ _; rfl
  | cons m ms ih =>
    intro seen seq hinv ht
    have hm : m < seq.node_map.length := ht m (List.mem_cons_self m ms)
    have hstep := getVReg_step seen seq m hinv hm
    by_cases hmem : m ∈ seen
    · have heq := hstep.1 hmem
      rw [firstOccsFrom, if_pos hmem]
      simp only [InstructionSequence.runGetVReg, heq, List.map_cons]
      congr 1
      · rw [List.indexOf_append_of_mem hmem]
      · exact ih seen seq hinv (fun i hi => ht i (List.mem_cons_of_mem m hi))
    · obtain ⟨hfst, hinv2, hlen⟩ := hstep.2 hmem
      rw [firstOccsFrom, if_neg hmem]
      simp only [InstructionSequence.runGetVReg, List.map_cons]
      have hsplit : seen ++ m :: firstOccsFrom (seen ++ [m]) ms
          = (seen ++ [m]) ++ firstOccsFrom (seen ++ [m]) ms := by
        simp
      congr 1
      · rw [hfst, List.indexOf_append_of_not_mem hmem, List.indexOf_cons_self]
        simp
      · rw [hsplit]
        exact ih (seen ++ [m]) (InstructionSequence.GetVirtualRegister m seq).2 hinv2
          (fun i hi => hlen ▸ ht i (List.mem_cons_of_mem m hi))

/-- C2: over any trace of `GetVirtualRegister` calls on a fresh sequence
(each queried node id in range), every call on node `m` returns the rank
of `m` in the first-occurrence order of the trace — so repeated calls on
one node all return the same id, and the nodes' first calls receive
the strictly increasing ids 0, 1, 2, ... in first-call order (the rank
map enumerates `0, 1, 2, ...` over the duplicate-free first-occurrence
list). -/
theorem getVirtualRegister_ids (t : List Nat) (node_count : Nat)
    (ht : ∀ i ∈ t, i < node_count) :
    (InstructionSequence.runGetVReg t (InstructionSequence.init node_count)).1
      = t.map (fun m => (((firstOccs t).indexOf m : Nat) : Int))
    ∧ (firstOccs t).map (fun m => (firstOccs t).indexOf m)
      = List.range (firstOccs t).length := by
  constructor
  · have hinv : VRegInv [] (InstructionSequence.init node_count) := by
      refine ⟨rfl, List.nodup_nil, ?_⟩
      intro i hi
      simp only [InstructionSequence.init, List.length_replicate] at hi
      simp [InstructionSequence.init, List.getD_eq_getElem?_getD,
        List.getElem?_replicate, hi]
    have ht2 : ∀ i ∈ t, i < (InstructionSequence.init node_count).node_map.length := by
      intro i hi
      simpa [InstructionSequence.init] using ht i hi
    have h := runGetVReg_spec t [] (InstructionSequence.init node_count) hinv ht2
    simpa [firstOccs] using h
  · exact map_indexOf_self_of_nodup (firstOccs t) (nodup_firstOccsFrom t [])

/-- C2 witness: the trace 5, 3, 5, 0 on a six-node graph yields the ids
0, 1, 0, 2 under the rank map of its first-occurrence list [5, 3, 0]. -/
theorem getVirtualRegister_ids_witness :
    (InstructionSequence.runGetVReg [5, 3, 5, 0] (InstructionSequence.init 6)).1
      = [5, 3, 5, 0].map (fun m => (((firstOccs [5, 3, 5, 0]).indexOf m : Nat) : Int))
    ∧ (firstOccs [5, 3, 5, 0]).map (fun m => (firstOccs [5, 3, 5, 0]).indexOf m)
      = List.range (firstOccs [5, 3, 5, 0]).length :=
  getVirtualRegister_ids [5, 3, 5, 0] 6 (by decide)

end V8
